import Mathlib

/-!
# Verification of the `awful_book_sanitizer` dispatcher, writer and driver

Shallow embedding of `src/main.rs` of the `awful_book_sanitizer` repository.
The external collaborators (the LLM client `ask`, the tokenizer/splitter,
configuration parsing) are abstracted as parameters: each call of `ask` is an
oracle value `AskResult`; the splitter is a parameter producing the chunk
list of a file's contents.  The filesystem is modelled as a map from paths to
file contents (append-only opens concatenate onto the existing content).
-/

set_option autoImplicit false

namespace BookSanitizer

/-- Result of one call of the external `awful_aj::api::ask`:
either a response body string, or a transport/endpoint error message. -/
inductive AskResult where
  | ok (body : String)
  | err (msg : String)
  deriving DecidableEq

/-- The fatal errors `fetch_with_backoff` can return: the serde parse error
from `serde_json::from_str::<BookChunk>(..)?` (line 292), and the final
`Err("All retries failed")` (line 310). -/
inductive FetchErr where
  | parseError
  | allRetriesFailed
  deriving DecidableEq

/-- Constant `MAX_RETRIES: u32 = 5` (line 254). -/
def MAX_RETRIES : Nat := 5

/-- Constant `BASE_DELAY_MS: u64 = 500` (line 256). -/
def BASE_DELAY_MS : Nat := 500

/- ## Model of `serde_json::from_str::<BookChunk>`

`BookChunk` (lines 79-83) is a struct with the single required `String`
field `sanitizedBookExcerpt`.  `serde_json` is an external crate; it is
modelled here on the subset of inputs the endpoint response contract of the
spec allows (a JSON object with at most one field): leading/trailing JSON
whitespace is skipped, an empty object lacks the required field (error), and
an object succeeds exactly when its single field is named
`sanitizedBookExcerpt` and carries a string value (escape sequences limited
to the common single-character ones).  Every other input is a parse error. -/

/-- Drop leading JSON whitespace characters. -/
def skipWs : List Char → List Char
  | c :: cs => if c = ' ' ∨ c = '\t' ∨ c = '\n' ∨ c = '\r' then skipWs cs else c :: cs
  | [] => []

/-- Parse the body of a JSON string (the opening quote already consumed):
returns the decoded characters and the input after the closing quote. -/
def parseStringBody : List Char → Option (List Char × List Char)
  | [] => none
  | '"' :: cs => some ([], cs)
  | '\\' :: c :: cs =>
      let esc : Option Char :=
        if c = '"' then some '"'
        else if c = '\\' then some '\\'
        else if c = '/' then some '/'
        else if c = 'n' then some '\n'
        else if c = 't' then some '\t'
        else if c = 'r' then some '\r'
        else none
      match esc with
      | some e =>
          match parseStringBody cs with
          | some (s, rest) => some (e :: s, rest)
          | none => none
      | none => none
  | c :: cs =>
      match parseStringBody cs with
      | some (s, rest) => some (c :: s, rest)
      | none => none

/-- Parse a JSON string literal at the head of the input. -/
def parseJsonStr : List Char → Option (List Char × List Char)
  | c :: cs => if c = '"' then parseStringBody cs else none
  | [] => none

/-- Deserialization of `BookChunk` from a character list: on success the
value of the `sanitizedBookExcerpt` field, `none` on any serde error
(including the missing required field of an empty object). -/
def parseBookChunkChars (l : List Char) : Option String :=
  match skipWs l with
  | [] => none
  | c :: cs =>
    if c = '{' then
      match skipWs cs with
      | [] => none
      | d :: rest =>
        if d = '}' then none
        else
          match parseJsonStr (d :: rest) with
          | none => none
          | some (key, r1) =>
            match skipWs r1 with
            | [] => none
            | e :: r2 =>
              if e = ':' then
                match parseJsonStr (skipWs r2) with
                | none => none
                | some (val, r3) =>
                  match skipWs r3 with
                  | [] => none
                  | f :: r4 =>
                    if f = '}' then
                      if (skipWs r4).isEmpty && (key == "sanitizedBookExcerpt".toList)
                      then some (String.mk val)
                      else none
                    else none
              else none
    else none

/-- Model of `serde_json::from_str::<BookChunk>(&res)` (line 292),
projected to the field value. -/
def parseBookChunk (s : String) : Option String :=
  parseBookChunkChars s.toList

/-- A textual rendering of the empty JSON object: optional whitespace, an
opening brace, optional whitespace, a closing brace, optional whitespace. -/
def isEmptyObjectRendering (s : String) : Bool :=
  match skipWs s.toList with
  | [] => false
  | c :: cs =>
      if c = '{' then
        match skipWs cs with
        | [] => false
        | d :: rest => if d = '}' then (skipWs rest).isEmpty else false
      else false

/- ## `fetch_with_backoff` (lines 281-311) -/

/-- The body of one loop iteration of `fetch_with_backoff` up to the retry
decision (lines 289-301): `some r` means the function returns `r` now
(sentinel, parsed chunk, or serde error via `?`); `none` means the attempt
failed with a transport/endpoint error and the loop may retry. -/
def attemptStep (res : AskResult) : Option (Except FetchErr (Option String)) :=
  match res with
  | .ok body =>
      if body = "{}" then some (.ok none)
      else
        match parseBookChunk body with
        | some text => some (.ok (some text))
        | none => some (.error .parseError)
  | .err _ => none

/-- Observable outcome of one `fetch_with_backoff` call: the returned value,
the number of `ask` attempts actually made, and the backoff sleeps (in ms)
in the order they were awaited. -/
structure FetchRun where
  result : Except FetchErr (Option String)
  attempts : Nat
  sleeps : List Nat

/-- The loop `for attempt in 0..=MAX_RETRIES` of `fetch_with_backoff`,
from iteration `attempt` with `remaining` further iterations allowed
(`remaining = MAX_RETRIES - attempt`); the guard `attempt < MAX_RETRIES`
of line 303 is `remaining > 0`.  The sleep of line 306 of a failed attempt
`attempt` is `BASE_DELAY_MS * 2 ^ attempt` and precedes the next attempt. -/
def fetchAux (responses : Nat → AskResult) : Nat → Nat → FetchRun
  | attempt, 0 =>
      match attemptStep (responses attempt) with
      | some r => ⟨r, attempt + 1, []⟩
      | none => ⟨.error .allRetriesFailed, attempt + 1, []⟩
  | attempt, r + 1 =>
      match attemptStep (responses attempt) with
      | some res => ⟨res, attempt + 1, []⟩
      | none =>
          let rest := fetchAux responses (attempt + 1) r
          ⟨rest.result, rest.attempts, BASE_DELAY_MS * 2 ^ attempt :: rest.sleeps⟩

/-- Function `fetch_with_backoff` (lines 281-311), with the result of the `ask` call
of attempt `i` (0-based) given by `responses i`. -/
def fetch_with_backoff (responses : Nat → AskResult) : FetchRun :=
  fetchAux responses 0 MAX_RETRIES

/- ## `write_row_to_file` (lines 235-251) -/

/-- Strip one trailing carriage return, as `strip_suffix` inside Rust's
`str::lines` does on every segment that ended in a line feed. -/
def dropTrailingCr : List Char → List Char
  | [] => []
  | [c] => if c = '\r' then [] else [c]
  | c :: cs => c :: dropTrailingCr cs

/-- Split at line feeds; the resulting segments joined by a line feed give
back the input. -/
def splitNl : List Char → List (List Char)
  | [] => [[]]
  | c :: cs =>
      if c = '\n' then [] :: splitNl cs
      else
        match splitNl cs with
        | y :: ys => (c :: y) :: ys
        | [] => [[c]]

/-- Rust `str::lines` on the segments: every segment that was followed by a
line feed loses a trailing carriage return; a final empty segment (from a
trailing line feed) yields no line. -/
def rustLinesAux : List (List Char) → List (List Char)
  | [] => []
  | [seg] => if seg = [] then [] else [seg]
  | seg :: rest => dropTrailingCr seg :: rustLinesAux rest

/-- Model of `chunk.lines()` (line 246). -/
def rustLines (s : String) : List String :=
  (rustLinesAux (splitNl s.toList)).map String.mk

/-- Concatenation of a list of strings, in order. -/
def strConcat : List String → String
  | [] => ""
  | s :: rest => s ++ strConcat rest

/-- The block-literal entry one `write_row_to_file` call emits: the header
line of line 245 followed by one indented line per line of the chunk
(lines 246-248), each terminated by `writeln!`'s newline. -/
def rowEntry (chunk : String) : String :=
  "\t- |-\n" ++ strConcat ((rustLines chunk).map fun l => "\t\t" ++ l ++ "\n")

/-- Function `write_row_to_file` (lines 235-251): open the YAML file in append mode
(creating it if absent) and append one block-literal entry; modelled as the
transformation of that file's content. -/
def write_row_to_file (chunk : String) (content : String) : String :=
  content ++ rowEntry chunk

/-- Reassembling lines with newline separators — the spec-side inverse of
line splitting, used to state that internal newlines survive verbatim. -/
def joinLines : List String → String
  | [] => ""
  | [l] => l
  | l :: ls => l ++ "\n" ++ joinLines ls

/-- Character-level companion of `joinLines`. -/
def joinNl : List (List Char) → List Char
  | [] => []
  | [l] => l
  | l :: ls => l ++ '\n' :: joinNl ls

/- ## `process_files` (lines 156-212) and `main` (lines 92-130) -/

/-- A directory entry of `fs::read_dir`: its file name and whether it is a
regular file — the data the filter of line 179 inspects. -/
structure DirEntry where
  name : String
  isFile : Bool
  deriving DecidableEq

/-- Locate the last dot of a file name: the characters before and after it. -/
def lastDotSplit : List Char → Option (List Char × List Char)
  | [] => none
  | c :: cs =>
      match lastDotSplit cs with
      | some (b, a) => some (c :: b, a)
      | none => if c = '.' then some ([], cs) else none

/-- Model of Rust `Path::extension` on a bare file name: the portion after
the last dot; `none` when there is no dot, when the only dot is the leading
character (hidden files), or for the special name `..`. -/
def extension (name : String) : Option String :=
  if name = ".." then none
  else
    match lastDotSplit name.toList with
    | none => none
    | some (b, a) => if b = [] then none else some (String.mk a)

/-- The filter of line 179:
`path.is_file() && path.extension().and_then(..) == Some("txt")`. -/
def matchesTxt (e : DirEntry) : Bool :=
  e.isFile && (extension e.name == some "txt")

/-- Observable events of one endpoint's run, recorded for the sequencing
claims: the header write for a file, the dispatch of a chunk, and the
append of an accepted chunk. -/
inductive Ev where
  | header (file : String)
  | dispatch (file : String) (chunk : Nat)
  | append (file : String) (chunk : Nat)
  deriving DecidableEq

/-- State threaded through `process_files`: the contents of the output
files (by path; a file not yet created reads as the empty string) and the
trace of observable events so far. -/
structure ProcState where
  fs : String → String
  trace : List Ev

/-- Output path built at line 181: the output directory, a slash, the
input file's name, and the suffix `.yaml`. -/
def yamlPathFor (outDir name : String) : String :=
  outDir ++ "/" ++ name ++ ".yaml"

/-- Lines 184-191: open the YAML file in append mode (create if absent) and
write the `chunks:` header line — unconditionally, whatever the file
already holds. -/
def writeHeader (st : ProcState) (p : String) (fname : String) : ProcState :=
  { fs := fun q => if q = p then st.fs p ++ "chunks:\n" else st.fs q,
    trace := st.trace ++ [Ev.header fname] }

/-- The chunk loop of `process_files` (lines 198-207): for each indexed
chunk in order, dispatch it (`fetch_with_backoff`, the `ask` result of
attempt `j` of chunk `i` given by `oracle i j`); a fatal error propagates
immediately through the `?` of line 201; `Some` text is appended with
`write_row_to_file`; `None` is skipped. -/
def procChunks (oracle : Nat → Nat → AskResult) (p : String) (f : String) :
    List (Nat × String) → ProcState → ProcState × Option FetchErr
  | [], st => (st, none)
  | (i, _) :: rest, st =>
      let st1 : ProcState := { st with trace := st.trace ++ [Ev.dispatch f i] }
      match (fetch_with_backoff (oracle i)).result with
      | .error e => (st1, some e)
      | .ok none => procChunks oracle p f rest st1
      | .ok (some text) =>
          procChunks oracle p f rest
            { fs := fun q => if q = p then write_row_to_file text (st1.fs p)
                             else st1.fs q,
              trace := st1.trace ++ [Ev.append f i] }

/-- Function `process_files` (lines 156-212): iterate the directory entries in
order; each regular file with extension `txt` gets its header written and
its chunk loop run on the chunks the external splitter produces from its
contents; a fatal dispatch error propagates immediately and ends the whole
run.  Filesystem reads and opens are assumed to succeed; `readFile` and
`chunksOf` abstract `fs::read_to_string` and the external `TextSplitter`. -/
def process_files (oracle : String → Nat → Nat → AskResult) (outDir : String)
    (readFile : String → String) (chunksOf : String → List String) :
    List DirEntry → ProcState → ProcState × Option FetchErr
  | [], st => (st, none)
  | e :: rest, st =>
      if matchesTxt e then
        match procChunks (oracle e.name) (yamlPathFor outDir e.name) e.name
            (chunksOf (readFile e.name)).enum
            (writeHeader st (yamlPathFor outDir e.name) e.name) with
        | (st2, some err) => (st2, some err)
        | (st2, none) => process_files oracle outDir readFile chunksOf rest st2
      else process_files oracle outDir readFile chunksOf rest st

/-- Opaque external endpoint configuration (`AwfulJadeConfig`), tagged so
distinct configurations stay distinguishable. -/
structure Config where
  tag : Nat
  deriving DecidableEq

/-- The spawn loop of `main` (lines 103-120): configuration files load in
order; each successful load spawns a worker (collected in the returned
list); the first failing load makes `main` return the mapped error through
the `?` of line 106, so no later configuration is loaded or spawned.
Returns the spawned configurations and `main`'s config-load error, if any. -/
def mainConfigLoop : List (Except String Config) → List Config × Option String
  | [] => ([], none)
  | .ok c :: rest =>
      let r := mainConfigLoop rest
      (c :: r.1, r.2)
  | .error m :: _ => ([], some ("Config load error: " ++ m))

/-- Whether a dispatcher result is one of the fatal errors. -/
def isFatal : Except FetchErr (Option String) → Bool
  | .error _ => true
  | .ok _ => false

/-- Project the header events out of a trace. -/
def headerName : Ev → Option String
  | .header n => some n
  | _ => none

/-- An attempt whose `ask` call failed never makes the loop return. -/
theorem attemptStep_err (m : String) : attemptStep (.err m) = none := rfl

/-- Shifting the attempt index inside the backoff schedule. -/
theorem backoff_shift (a k : Nat) :
    BASE_DELAY_MS * 2 ^ a :: ((List.range k).map fun j => BASE_DELAY_MS * 2 ^ (a + 1 + j))
      = (List.range (k + 1)).map fun j => BASE_DELAY_MS * 2 ^ (a + j) := by
  rw [List.range_succ_eq_map, List.map_cons, List.map_map]
  refine congrArg₂ _ (by simp) ?_
  refine List.map_congr_left ?_
  intro j _
  simp only [Function.comp_apply]
  rw [show a + 1 + j = a + (j + 1) from by omega]

/-- If the first `k` attempts starting at `a` all fail at the transport
level, the loop sleeps the backoff of each of them and continues at
attempt `a + k`. -/
theorem fetchAux_skip_errors (responses : Nat → AskResult) (k : Nat) :
    ∀ a r, k ≤ r → (∀ j, j < k → attemptStep (responses (a + j)) = none) →
      fetchAux responses a r =
        ⟨(fetchAux responses (a + k) (r - k)).result,
         (fetchAux responses (a + k) (r - k)).attempts,
         ((List.range k).map fun j => BASE_DELAY_MS * 2 ^ (a + j)) ++
           (fetchAux responses (a + k) (r - k)).sleeps⟩ := by
  induction k with
  | zero =>
      intro a r _ _
      simp
  | succ k ih =>
      intro a r hk herr
      obtain ⟨r', rfl⟩ : ∃ r', r = r' + 1 := by
        cases r with
        | zero => omega
        | succ r' => exact ⟨r', rfl⟩
      have h0 : attemptStep (responses a) = none := by
        have := herr 0 (Nat.succ_pos k)
        simpa using this
      have hrec := ih (a + 1) r' (by omega) (by
        intro j hj
        have := herr (j + 1) (by omega)
        have hx : a + (j + 1) = a + 1 + j := by omega
        rwa [hx] at this)
      have hidx : a + (k + 1) = a + 1 + k := by omega
      have hsub : r' + 1 - (k + 1) = r' - k := by omega
      simp only [fetchAux, h0, hrec]
      simp only [hidx, hsub]
      congr 1
      rw [← List.cons_append, backoff_shift]

/-- C1: when every attempt of a `fetch_with_backoff` run fails with a
transport/endpoint error, exactly 6 attempts are made (5 retries after the
first try), the wait before attempt `k + 1` (`k` 1-based) is
`500ms * 2 ^ (k - 1)`, no wait precedes the first attempt (there are
`attempts - 1 = 5` waits, each inserted after a failed attempt), and the
dispatcher returns the fatal `All retries failed` error. -/
theorem fetch_all_failures_exhausts_retries (responses : Nat → AskResult)
    (h : ∀ i, i ≤ MAX_RETRIES → ∃ m, responses i = AskResult.err m) :
    (fetch_with_backoff responses).result = .error .allRetriesFailed
    ∧ (fetch_with_backoff responses).attempts = 6
    ∧ (fetch_with_backoff responses).sleeps = [500, 1000, 2000, 4000, 8000]
    ∧ (∀ k, 1 ≤ k → k ≤ MAX_RETRIES →
        (fetch_with_backoff responses).sleeps.get? (k - 1)
          = some (BASE_DELAY_MS * 2 ^ (k - 1)))
    ∧ (fetch_with_backoff responses).sleeps.length
        = (fetch_with_backoff responses).attempts - 1 := by
  have herr : ∀ j, j < 5 → attemptStep (responses (0 + j)) = none := by
    intro j hj
    obtain ⟨m, hm⟩ := h j (by change j ≤ 5; omega)
    simp only [Nat.zero_add, hm, attemptStep]
  have hskip := fetchAux_skip_errors responses 5 0 5 (le_refl 5) herr
  obtain ⟨m5, hm5⟩ := h 5 (le_refl 5)
  have hend : fetchAux responses 5 0 = ⟨.error .allRetriesFailed, 6, []⟩ := by
    simp [fetchAux, hm5, attemptStep]
  have hrun : fetch_with_backoff responses
      = ⟨.error .allRetriesFailed, 6, [500, 1000, 2000, 4000, 8000]⟩ := by
    rw [fetch_with_backoff, show MAX_RETRIES = 5 from rfl, hskip]
    rw [show (0 : Nat) + 5 = 5 from rfl, show 5 - 5 = 0 from rfl, hend]
    refine congrArg₂ _ rfl ?_
    decide
  refine ⟨by rw [hrun], by rw [hrun], by rw [hrun], ?_, by rw [hrun]; rfl⟩
  intro k hk1 hk5
  rw [hrun]
  have hk5' : k ≤ 5 := hk5
  interval_cases k <;> rfl

/-- Witness for `fetch_all_failures_exhausts_retries` with every attempt
failing with the same transport error. -/
theorem fetch_all_failures_exhausts_retries_witness :
    (∀ i, i ≤ MAX_RETRIES → ∃ m, (fun _ => AskResult.err "boom") i = AskResult.err m)
    ∧ (fetch_with_backoff fun _ => AskResult.err "boom").result
        = .error .allRetriesFailed
    ∧ (fetch_with_backoff fun _ => AskResult.err "boom").sleeps
        = [500, 1000, 2000, 4000, 8000] :=
  ⟨fun _ _ => ⟨"boom", rfl⟩,
   (fetch_all_failures_exhausts_retries (fun _ => .err "boom")
      (fun _ _ => ⟨"boom", rfl⟩)).1,
   (fetch_all_failures_exhausts_retries (fun _ => .err "boom")
      (fun _ _ => ⟨"boom", rfl⟩)).2.2.1⟩

/- ## Lemmas about the writer's line handling -/

theorem mk_append (a b : List Char) : String.mk a ++ String.mk b = String.mk (a ++ b) := rfl

theorem mk_toList (s : String) : String.mk s.toList = s := by
  cases s
  rfl

theorem dropTrailingCr_cons₂ (c d : Char) (ds : List Char) :
    dropTrailingCr (c :: d :: ds) = c :: dropTrailingCr (d :: ds) := rfl

theorem rustLinesAux_cons₂ (x y : List Char) (ys : List (List Char)) :
    rustLinesAux (x :: y :: ys) = dropTrailingCr x :: rustLinesAux (y :: ys) := rfl

theorem splitNl_cons_nl (cs : List Char) : splitNl ('\n' :: cs) = [] :: splitNl cs := by
  simp [splitNl]

theorem splitNl_cons_other (c : Char) (cs : List Char) (hc : ¬ c = '\n') :
    splitNl (c :: cs) =
      match splitNl cs with
      | y :: ys => (c :: y) :: ys
      | [] => [[c]] := by
  simp only [splitNl, if_neg hc]

theorem splitNl_ne_nil : ∀ l : List Char, splitNl l ≠ [] := by
  intro l
  cases l with
  | nil => simp [splitNl]
  | cons c cs =>
      by_cases hc : c = '\n'
      · simp [splitNl, hc]
      · simp only [splitNl, if_neg hc]
        rcases h : splitNl cs with _ | ⟨y, ys⟩ <;> simp

theorem joinNl_splitNl : ∀ l : List Char, joinNl (splitNl l) = l := by
  intro l
  induction l with
  | nil => rfl
  | cons c cs ih =>
      obtain ⟨y, ys, hsp⟩ : ∃ y ys, splitNl cs = y :: ys := by
        rcases h : splitNl cs with _ | ⟨y, ys⟩
        · exact absurd h (splitNl_ne_nil cs)
        · exact ⟨y, ys, rfl⟩
      by_cases hc : c = '\n'
      · subst hc
        simp only [splitNl, if_pos rfl, hsp]
        show ([] : List Char) ++ '\n' :: joinNl (y :: ys) = '\n' :: cs
        rw [List.nil_append, ← hsp, ih]
      · simp only [splitNl, if_neg hc, hsp]
        cases ys with
        | nil =>
            show c :: y = c :: cs
            have : joinNl [y] = cs := by rw [← hsp, ih]
            simp only [joinNl] at this
            rw [this]
        | cons z zs =>
            show (c :: y) ++ '\n' :: joinNl (z :: zs) = c :: cs
            have : joinNl (y :: z :: zs) = cs := by rw [← hsp, ih]
            simp only [joinNl] at this
            rw [List.cons_append, this]

theorem mem_joinNl (c : Char) (seg : List Char) :
    ∀ ll : List (List Char), seg ∈ ll → c ∈ seg → c ∈ joinNl ll := by
  intro ll
  induction ll with
  | nil => intro h; cases h
  | cons x xs ih =>
      intro hseg hc
      cases xs with
      | nil =>
          have : seg = x := by simpa using hseg
          subst this
          simpa [joinNl] using hc
      | cons y ys =>
          rcases List.mem_cons.mp hseg with rfl | h
          · show c ∈ seg ++ '\n' :: joinNl (y :: ys)
            exact List.mem_append_left _ hc
          · show c ∈ x ++ '\n' :: joinNl (y :: ys)
            refine List.mem_append_right _ ?_
            exact List.mem_cons_of_mem _ (ih h hc)

theorem dropTrailingCr_id : ∀ seg : List Char, '\r' ∉ seg → dropTrailingCr seg = seg := by
  intro seg
  induction seg with
  | nil => intro _; rfl
  | cons c cs ih =>
      intro h
      cases cs with
      | nil =>
          have hc : ¬ c = '\r' := by
            intro hc
            exact h (by simp [hc])
          simp [dropTrailingCr, hc]
      | cons d ds =>
          have : '\r' ∉ d :: ds := fun hm => h (List.mem_cons_of_mem _ hm)
          rw [dropTrailingCr_cons₂, ih this]

theorem splitNl_getLast_ne_nil :
    ∀ l : List Char, l ≠ [] → l.getLast? ≠ some '\n' →
      (splitNl l).getLast? ≠ some [] := by
  intro l
  induction l with
  | nil => intro h; exact absurd rfl h
  | cons c cs ih =>
      intro _ hlast
      cases cs with
      | nil =>
          have hc : ¬ c = '\n' := by
            intro hc
            exact hlast (by simp [hc])
          rw [splitNl_cons_other c [] hc]
          simp [splitNl]
      | cons d ds =>
          obtain ⟨y, ys, hsp⟩ : ∃ y ys, splitNl (d :: ds) = y :: ys := by
            rcases h : splitNl (d :: ds) with _ | ⟨y, ys⟩
            · exact absurd h (splitNl_ne_nil _)
            · exact ⟨y, ys, rfl⟩
          have hlast' : (d :: ds).getLast? ≠ some '\n' := by
            rwa [List.getLast?_cons_cons] at hlast
          have hrec := ih (by simp) hlast'
          rw [hsp] at hrec
          by_cases hc : c = '\n'
          · subst hc
            rw [splitNl_cons_nl, hsp]
            rcases ys with _ | ⟨z, zs⟩
            · simpa using hrec
            · rwa [List.getLast?_cons_cons]
          · rw [splitNl_cons_other c (d :: ds) hc, hsp]
            rcases ys with _ | ⟨z, zs⟩
            · show ([(c :: y)] : List (List Char)).getLast? ≠ some []
              simp
            · show ((c :: y) :: z :: zs).getLast? ≠ some []
              rwa [List.getLast?_cons_cons] at hrec ⊢

theorem rustLinesAux_id :
    ∀ ll : List (List Char), (∀ seg ∈ ll, '\r' ∉ seg) → ll.getLast? ≠ some [] →
      rustLinesAux ll = ll := by
  intro ll
  induction ll with
  | nil => intro _ _; rfl
  | cons x xs ih =>
      intro hcr hlast
      cases xs with
      | nil =>
          have hx : ¬ x = [] := by
            intro hx
            exact hlast (by simp [hx])
          simp [rustLinesAux, hx]
      | cons y ys =>
          have hlast' : (y :: ys).getLast? ≠ some [] := by
            rwa [List.getLast?_cons_cons] at hlast
          rw [rustLinesAux_cons₂, dropTrailingCr_id x (hcr x (by simp)),
            ih (fun seg hs => hcr seg (List.mem_cons_of_mem _ hs)) hlast']

theorem joinLines_map_mk :
    ∀ ll : List (List Char), joinLines (ll.map String.mk) = String.mk (joinNl ll) := by
  intro ll
  induction ll with
  | nil => rfl
  | cons x xs ih =>
      cases xs with
      | nil => rfl
      | cons y ys =>
          show String.mk x ++ "\n" ++ joinLines ((y :: ys).map String.mk)
              = String.mk (x ++ '\n' :: joinNl (y :: ys))
          rw [ih, show ("\n" : String) = String.mk ['\n'] from rfl, mk_append, mk_append,
            List.append_assoc]
          rfl

/-- Under no carriage returns and no trailing line feed, Rust's
`str::lines` splits exactly at the internal line feeds: rejoining the lines
with line feeds restores the chunk verbatim. -/
theorem joinLines_rustLines (chunk : String)
    (hcr : '\r' ∉ chunk.toList) (hnl : chunk.toList.getLast? ≠ some '\n') :
    joinLines (rustLines chunk) = chunk := by
  rw [rustLines, joinLines_map_mk]
  rcases hl : chunk.toList with _ | ⟨c, cs⟩
  · rw [show rustLinesAux (splitNl []) = [] from rfl]
    rw [show joinNl [] = ([] : List Char) from rfl, ← hl, mk_toList]
  · rw [rustLinesAux_id (splitNl (c :: cs)) ?hseg ?hlast, joinNl_splitNl, ← hl, mk_toList]
    case hseg =>
      intro seg hs hr
      refine hcr ?_
      rw [hl, ← joinNl_splitNl (c :: cs)]
      exact mem_joinNl _ _ _ hs hr
    case hlast =>
      refine splitNl_getLast_ne_nil _ (by simp) ?_
      rw [← hl]
      exact hnl

theorem str_append_nil (s : String) : s ++ "" = s := by
  cases s with
  | mk d =>
      show String.mk (d ++ []) = String.mk d
      rw [List.append_nil]

theorem str_append_assoc (a b c : String) : a ++ b ++ c = a ++ (b ++ c) := by
  cases a with
  | mk x =>
      cases b with
      | mk y =>
          cases c with
          | mk z =>
              show String.mk (x ++ y ++ z) = String.mk (x ++ (y ++ z))
              rw [List.append_assoc]

/-- Counterexample to C6 as stated: the writer's lines are not verbatim on
every cleaned text.  On the chunk `"a\r\nb"` Rust's `chunk.lines()` strips
the carriage return of the CRLF, so the emitted indented lines rejoin to
`"a\nb"`, not to the original text; and on `"a\n"` the trailing line feed
is dropped, so the lines rejoin to `"a"`. -/
theorem write_row_newlines_not_verbatim :
    rowEntry "a\r\nb"
      = "\t- |-\n" ++ strConcat ((["a", "b"] : List String).map fun l => "\t\t" ++ l ++ "\n")
    ∧ joinLines (rustLines "a\r\nb") = "a\nb"
    ∧ joinLines (rustLines "a\r\nb") ≠ "a\r\nb"
    ∧ joinLines (rustLines "a\n") = "a"
    ∧ joinLines (rustLines "a\n") ≠ "a\n" :=
  ⟨by decide, by decide, by decide, by decide, by decide⟩

/-- C6 amended: for every call, `write_row_to_file` appends exactly one
block-literal entry to the target file (opened in append mode, created if
absent): the prior content stays an untouched prefix; the appended entry is
the header line followed by the chunk's `lines()`, each indented and
newline-terminated; and a second call with the same text appends a second
identical entry (no deduplication).  For a chunk with no carriage return
and no trailing line feed, rejoining those lines restores the chunk with
its internal newlines verbatim (a CRLF loses its carriage return and a
trailing line feed is dropped, as the counterexample records). -/
theorem write_row_to_file_appends (content chunk : String) :
    write_row_to_file chunk content = content ++ rowEntry chunk
    ∧ write_row_to_file chunk (write_row_to_file chunk content)
        = content ++ rowEntry chunk ++ rowEntry chunk
    ∧ rowEntry chunk
        = "\t- |-\n" ++ strConcat ((rustLines chunk).map fun l => "\t\t" ++ l ++ "\n")
    ∧ ('\r' ∉ chunk.toList → chunk.toList.getLast? ≠ some '\n' →
        joinLines (rustLines chunk) = chunk) :=
  ⟨rfl, rfl, rfl, fun hcr hnl => joinLines_rustLines chunk hcr hnl⟩

/-- Witness for `write_row_to_file_appends` on a two-line chunk. -/
theorem write_row_to_file_appends_witness :
    write_row_to_file "line 1\nline 2" "prior"
        = "prior" ++ rowEntry "line 1\nline 2"
    ∧ write_row_to_file "line 1\nline 2" (write_row_to_file "line 1\nline 2" "prior")
        = "prior" ++ rowEntry "line 1\nline 2" ++ rowEntry "line 1\nline 2"
    ∧ joinLines (rustLines "line 1\nline 2") = "line 1\nline 2" :=
  ⟨(write_row_to_file_appends "prior" "line 1\nline 2").1,
   (write_row_to_file_appends "prior" "line 1\nline 2").2.1,
   (write_row_to_file_appends "prior" "line 1\nline 2").2.2.2 (by decide) (by decide)⟩

/- ## Lemmas about the chunk loop -/

theorem procChunks_nil (oracle : Nat → Nat → AskResult) (p f : String) (st : ProcState) :
    procChunks oracle p f [] st = (st, none) := rfl

theorem procChunks_fatal {oracle : Nat → Nat → AskResult} {p f : String}
    {i : Nat} {c : String} {rest : List (Nat × String)} {st : ProcState} {e : FetchErr}
    (hf : (fetch_with_backoff (oracle i)).result = .error e) :
    procChunks oracle p f ((i, c) :: rest) st
      = ({ st with trace := st.trace ++ [Ev.dispatch f i] }, some e) := by
  simp only [procChunks, hf]

theorem procChunks_skip {oracle : Nat → Nat → AskResult} {p f : String}
    {i : Nat} {c : String} {rest : List (Nat × String)} {st : ProcState}
    (hf : (fetch_with_backoff (oracle i)).result = .ok none) :
    procChunks oracle p f ((i, c) :: rest) st
      = procChunks oracle p f rest { st with trace := st.trace ++ [Ev.dispatch f i] } := by
  simp only [procChunks, hf]

theorem procChunks_accept {oracle : Nat → Nat → AskResult} {p f : String}
    {i : Nat} {c : String} {rest : List (Nat × String)} {st : ProcState} {text : String}
    (hf : (fetch_with_backoff (oracle i)).result = .ok (some text)) :
    procChunks oracle p f ((i, c) :: rest) st
      = procChunks oracle p f rest
          { fs := fun q => if q = p then write_row_to_file text (st.fs p) else st.fs q,
            trace := (st.trace ++ [Ev.dispatch f i]) ++ [Ev.append f i] } := by
  simp only [procChunks, hf]

theorem procChunks_append_ok (oracle : Nat → Nat → AskResult) (p f : String)
    (l1 l2 : List (Nat × String)) :
    ∀ st st1, procChunks oracle p f l1 st = (st1, none) →
      procChunks oracle p f (l1 ++ l2) st = procChunks oracle p f l2 st1 := by
  induction l1 with
  | nil =>
      intro st st1 h
      simp only [procChunks, Prod.mk.injEq, and_true] at h
      rw [List.nil_append, h]
  | cons hd tl ih =>
      intro st st1 h
      obtain ⟨i, c⟩ := hd
      rw [List.cons_append]
      cases hres : (fetch_with_backoff (oracle i)).result with
      | error e =>
          rw [procChunks_fatal hres] at h
          exact absurd (congrArg Prod.snd h) (by simp)
      | ok v =>
          cases v with
          | none =>
              rw [procChunks_skip hres] at h ⊢
              exact ih _ _ h
          | some text =>
              rw [procChunks_accept hres] at h ⊢
              exact ih _ _ h

theorem procChunks_append_err (oracle : Nat → Nat → AskResult) (p f : String)
    (l1 l2 : List (Nat × String)) :
    ∀ st st1 e, procChunks oracle p f l1 st = (st1, some e) →
      procChunks oracle p f (l1 ++ l2) st = (st1, some e) := by
  induction l1 with
  | nil =>
      intro st st1 e h
      simp only [procChunks, Prod.mk.injEq] at h
      exact absurd h.2 (by simp)
  | cons hd tl ih =>
      intro st st1 e h
      obtain ⟨i, c⟩ := hd
      rw [List.cons_append]
      cases hres : (fetch_with_backoff (oracle i)).result with
      | error e2 =>
          rw [procChunks_fatal hres] at h ⊢
          exact h
      | ok v =>
          cases v with
          | none =>
              rw [procChunks_skip hres] at h ⊢
              exact ih _ _ _ h
          | some text =>
              rw [procChunks_accept hres] at h ⊢
              exact ih _ _ _ h

theorem procChunks_fs_other (oracle : Nat → Nat → AskResult) (p f : String)
    (l : List (Nat × String)) :
    ∀ st q, q ≠ p → ((procChunks oracle p f l st).1).fs q = st.fs q := by
  induction l with
  | nil => intro st q _; rfl
  | cons hd tl ih =>
      intro st q hq
      obtain ⟨i, c⟩ := hd
      cases hres : (fetch_with_backoff (oracle i)).result with
      | error e => rw [procChunks_fatal hres]
      | ok v =>
          cases v with
          | none =>
              rw [procChunks_skip hres]
              exact ih _ _ hq
          | some text =>
              rw [procChunks_accept hres, ih _ _ hq]
              simp [hq]

theorem procChunks_fs_p (oracle : Nat → Nat → AskResult) (p f : String)
    (l : List (Nat × String)) :
    ∀ st, ∃ t, ((procChunks oracle p f l st).1).fs p = st.fs p ++ t := by
  induction l with
  | nil => intro st; exact ⟨"", (str_append_nil _).symm⟩
  | cons hd tl ih =>
      intro st
      obtain ⟨i, c⟩ := hd
      cases hres : (fetch_with_backoff (oracle i)).result with
      | error e =>
          rw [procChunks_fatal hres]
          exact ⟨"", (str_append_nil _).symm⟩
      | ok v =>
          cases v with
          | none =>
              rw [procChunks_skip hres]
              exact ih _
          | some text =>
              rw [procChunks_accept hres]
              obtain ⟨t, ht⟩ := ih
                { fs := fun q => if q = p then write_row_to_file text (st.fs p) else st.fs q,
                  trace := (st.trace ++ [Ev.dispatch f i]) ++ [Ev.append f i] }
              refine ⟨rowEntry text ++ t, ?_⟩
              rw [ht]
              simp only [eq_self_iff_true, if_true]
              rw [write_row_to_file, str_append_assoc]

theorem procChunks_trace_headers (oracle : Nat → Nat → AskResult) (p f : String)
    (l : List (Nat × String)) :
    ∀ st, ((procChunks oracle p f l st).1.trace).filterMap headerName
      = st.trace.filterMap headerName := by
  induction l with
  | nil => intro st; rfl
  | cons hd tl ih =>
      intro st
      obtain ⟨i, c⟩ := hd
      cases hres : (fetch_with_backoff (oracle i)).result with
      | error e =>
          rw [procChunks_fatal hres]
          simp [List.filterMap_append, headerName]
      | ok v =>
          cases v with
          | none =>
              rw [procChunks_skip hres, ih]
              simp [List.filterMap_append, headerName]
          | some text =>
              rw [procChunks_accept hres, ih]
              simp [List.filterMap_append, headerName]

/-- The events contributed by one chunk, given its dispatcher result. -/
theorem procChunks_nonfatal (oracle : Nat → Nat → AskResult) (p f : String)
    (l : List (Nat × String)) :
    ∀ st, (∀ ic ∈ l, isFatal (fetch_with_backoff (oracle ic.1)).result = false) →
      (procChunks oracle p f l st).1.trace
        = st.trace ++ (l.flatMap fun ic =>
            match (fetch_with_backoff (oracle ic.1)).result with
            | .ok (some _) => [Ev.dispatch f ic.1, Ev.append f ic.1]
            | _ => [Ev.dispatch f ic.1])
      ∧ (procChunks oracle p f l st).2 = none
      ∧ (procChunks oracle p f l st).1.fs p
        = st.fs p ++ strConcat (l.filterMap fun ic =>
            match (fetch_with_backoff (oracle ic.1)).result with
            | .ok (some t) => some (rowEntry t)
            | _ => none) := by
  induction l with
  | nil =>
      intro st _
      exact ⟨by rw [procChunks_nil]; simp, rfl, (str_append_nil _).symm⟩
  | cons hd tl ih =>
      intro st hnf
      obtain ⟨i, c⟩ := hd
      have hhd := hnf (i, c) (by simp)
      have htl : ∀ ic ∈ tl, isFatal (fetch_with_backoff (oracle ic.1)).result = false :=
        fun ic h => hnf ic (List.mem_cons_of_mem _ h)
      cases hres : (fetch_with_backoff (oracle i)).result with
      | error e =>
          rw [hres] at hhd
          simp [isFatal] at hhd
      | ok v =>
          cases v with
          | none =>
              rw [procChunks_skip hres]
              obtain ⟨h1, h2, h3⟩ := ih _ htl
              refine ⟨?_, h2, ?_⟩
              · rw [h1, List.flatMap_cons]
                simp [hres, List.append_assoc]
              · rw [h3, List.filterMap_cons]
                simp [hres]
          | some text =>
              rw [procChunks_accept hres]
              obtain ⟨h1, h2, h3⟩ := ih _ htl
              refine ⟨?_, h2, ?_⟩
              · rw [h1, List.flatMap_cons]
                simp [hres, List.append_assoc]
              · rw [h3, List.filterMap_cons]
                simp only [hres]
                simp only [eq_self_iff_true, if_true]
                rw [write_row_to_file, str_append_assoc]
                rfl

/-- C7: for one (file, endpoint) pair the chunks are dispatched and their
accepted results appended strictly in source chunk order, one at a time:
the trace is, chunk by chunk in index order, a dispatch event followed —
for an accepted chunk — by its append event, before the next chunk's
dispatch; and the output file grows by exactly the accepted entries,
concatenated in that same order. -/
theorem chunks_processed_in_order (oracle : Nat → Nat → AskResult) (p f : String)
    (chunks : List String) (st : ProcState)
    (hnf : ∀ ic ∈ chunks.enum, isFatal (fetch_with_backoff (oracle ic.1)).result = false) :
    (procChunks oracle p f chunks.enum st).1.trace
      = st.trace ++ (chunks.enum.flatMap fun ic =>
          match (fetch_with_backoff (oracle ic.1)).result with
          | .ok (some _) => [Ev.dispatch f ic.1, Ev.append f ic.1]
          | _ => [Ev.dispatch f ic.1])
    ∧ (procChunks oracle p f chunks.enum st).2 = none
    ∧ (procChunks oracle p f chunks.enum st).1.fs p
      = st.fs p ++ strConcat (chunks.enum.filterMap fun ic =>
          match (fetch_with_backoff (oracle ic.1)).result with
          | .ok (some t) => some (rowEntry t)
          | _ => none) :=
  procChunks_nonfatal oracle p f chunks.enum st hnf

/-- An attempt whose loop body returns does so at once, whatever the retry
budget still allows. -/
theorem fetchAux_now {responses : Nat → AskResult} {a : Nat}
    {res : Except FetchErr (Option String)}
    (h : attemptStep (responses a) = some res) :
    ∀ r, fetchAux responses a r = ⟨res, a + 1, []⟩ := by
  intro r
  cases r with
  | zero => simp only [fetchAux, h]
  | succ r => simp only [fetchAux, h]

/-- When the first `i` attempts fail at the transport level and attempt `i`
makes the loop return `res`, the whole run returns `res` after `i + 1`
attempts with the backoff schedule of the `i` failures. -/
theorem fetch_first_success (responses : Nat → AskResult) (i : Nat)
    (hi : i ≤ MAX_RETRIES)
    (hpre : ∀ j, j < i → ∃ m, responses j = AskResult.err m)
    (res : Except FetchErr (Option String))
    (hstep : attemptStep (responses i) = some res) :
    fetch_with_backoff responses
      = ⟨res, i + 1, (List.range i).map fun j => BASE_DELAY_MS * 2 ^ j⟩ := by
  have herr : ∀ j, j < i → attemptStep (responses (0 + j)) = none := by
    intro j hj
    obtain ⟨m, hm⟩ := hpre j hj
    simp [Nat.zero_add, hm, attemptStep]
  have hskip := fetchAux_skip_errors responses i 0 5 hi herr
  rw [fetch_with_backoff, show MAX_RETRIES = 5 from rfl, hskip,
    show (0 : Nat) + i = i from Nat.zero_add i, fetchAux_now hstep]
  simp [Nat.zero_add]

/-- Every rendering of the empty object fails the `BookChunk` parse: the
required field `sanitizedBookExcerpt` is missing. -/
theorem parse_empty_object_fails (s : String) (h : isEmptyObjectRendering s = true) :
    parseBookChunk s = none := by
  rcases hs : skipWs s.toList with _ | ⟨c, cs⟩
  · simp only [isEmptyObjectRendering, hs] at h
    exact absurd h (by simp)
  · have hs' : skipWs s.data = c :: cs := hs
    simp only [isEmptyObjectRendering, hs] at h
    by_cases hc : c = '{'
    · rcases hs2 : skipWs cs with _ | ⟨d, rest⟩
      · rw [if_pos hc] at h
        simp only [hs2] at h
        exact absurd h (by simp)
      · rw [if_pos hc] at h
        simp only [hs2] at h
        by_cases hd : d = '}'
        · simp [parseBookChunk, parseBookChunkChars, hs, hs', hc, hs2, hd]
        · rw [if_neg hd] at h
          exact absurd h (by simp)
    · rw [if_neg hc] at h
      exact absurd h (by simp)

/-- C5: when some attempt yields a non-empty response body that fails to
parse as a `BookChunk`, the dispatcher returns the fatal parse error from
that very attempt — no further retry, no further sleep — and the chunk loop
stops with that error without writing anything for that chunk. -/
theorem parse_failure_fatal_immediately (oracle : Nat → Nat → AskResult)
    (ci i : Nat) (body c p f : String) (rest : List (Nat × String)) (st : ProcState)
    (hi : i ≤ MAX_RETRIES)
    (hpre : ∀ j, j < i → ∃ m, oracle ci j = AskResult.err m)
    (hok : oracle ci i = AskResult.ok body)
    (hne : body ≠ "{}")
    (hbad : parseBookChunk body = none) :
    (fetch_with_backoff (oracle ci)).result = .error .parseError
    ∧ (fetch_with_backoff (oracle ci)).attempts = i + 1
    ∧ (fetch_with_backoff (oracle ci)).sleeps.length = i
    ∧ procChunks oracle p f ((ci, c) :: rest) st
        = ({ st with trace := st.trace ++ [Ev.dispatch f ci] }, some FetchErr.parseError) := by
  have hstep : attemptStep (oracle ci i) = some (.error .parseError) := by
    rw [hok]
    simp [attemptStep, hne, hbad]
  have hrun := fetch_first_success (oracle ci) i hi hpre _ hstep
  have hres : (fetch_with_backoff (oracle ci)).result = .error .parseError := by
    rw [hrun]
  exact ⟨hres, by rw [hrun], by rw [hrun]; simp, procChunks_fatal hres⟩

/-- Witness for `parse_failure_fatal_immediately`: a response whose only
field is not `sanitizedBookExcerpt`. -/
theorem parse_failure_fatal_immediately_witness :
    parseBookChunk "\x7b\"bad\": \"x\"\x7d" = none
    ∧ (fetch_with_backoff ((fun _ _ => AskResult.ok "\x7b\"bad\": \"x\"\x7d") 0)).result
        = .error .parseError
    ∧ (fetch_with_backoff ((fun _ _ => AskResult.ok "\x7b\"bad\": \"x\"\x7d") 0)).attempts = 1
    ∧ procChunks (fun _ _ => AskResult.ok "\x7b\"bad\": \"x\"\x7d") "out/a.txt.yaml" "a.txt"
          [(0, "c")] ⟨fun _ => "", []⟩
        = (⟨fun _ => "", [Ev.dispatch "a.txt" 0]⟩, some FetchErr.parseError) :=
  ⟨by decide,
   (parse_failure_fatal_immediately (fun _ _ => AskResult.ok "\x7b\"bad\": \"x\"\x7d")
      0 0 "\x7b\"bad\": \"x\"\x7d" "c" "out/a.txt.yaml" "a.txt" [(0, "c")].tail
      ⟨fun _ => "", []⟩ (Nat.zero_le _) (fun j hj => absurd hj (Nat.not_lt_zero j))
      rfl (by decide) (by decide)).1,
   (parse_failure_fatal_immediately (fun _ _ => AskResult.ok "\x7b\"bad\": \"x\"\x7d")
      0 0 "\x7b\"bad\": \"x\"\x7d" "c" "out/a.txt.yaml" "a.txt" []
      ⟨fun _ => "", []⟩ (Nat.zero_le _) (fun j hj => absurd hj (Nat.not_lt_zero j))
      rfl (by decide) (by decide)).2.1,
   (parse_failure_fatal_immediately (fun _ _ => AskResult.ok "\x7b\"bad\": \"x\"\x7d")
      0 0 "\x7b\"bad\": \"x\"\x7d" "c" "out/a.txt.yaml" "a.txt" []
      ⟨fun _ => "", []⟩ (Nat.zero_le _) (fun j hj => absurd hj (Nat.not_lt_zero j))
      rfl (by decide) (by decide)).2.2.2⟩

/-- Counterexample to C3 as stated: `"{ }"` is a structurally valid
rendering of the empty object, yet the dispatcher does not return
`Ok(None)` — it fails the `BookChunk` parse and returns the fatal parse
error, because the sentinel test of line 291 compares against the exact
string `"{}"`. -/
theorem empty_object_rendering_not_skipped :
    isEmptyObjectRendering "\x7b \x7d" = true
    ∧ (fetch_with_backoff fun _ => AskResult.ok "\x7b \x7d").result ≠ Except.ok none
    ∧ (fetch_with_backoff fun _ => AskResult.ok "\x7b \x7d").result
        = .error .parseError := by
  refine ⟨by decide, ?_, rfl⟩
  intro h
  rw [show (fetch_with_backoff fun _ => AskResult.ok "\x7b \x7d").result
      = Except.error FetchErr.parseError from rfl] at h
  exact Except.noConfusion h

/-- C3 amended: for every chunk whose endpoint response is exactly the
two-character string `"{}"`, the dispatcher returns `Ok(None)` and the
caller skips the chunk silently: no output entry is appended, no error is
raised, and the loop continues with the remaining chunks. -/
theorem no_content_sentinel_skips (oracle : Nat → Nat → AskResult)
    (ci i : Nat) (c p f : String) (rest : List (Nat × String)) (st : ProcState)
    (hi : i ≤ MAX_RETRIES)
    (hpre : ∀ j, j < i → ∃ m, oracle ci j = AskResult.err m)
    (hok : oracle ci i = AskResult.ok "{}") :
    (fetch_with_backoff (oracle ci)).result = Except.ok none
    ∧ procChunks oracle p f ((ci, c) :: rest) st
        = procChunks oracle p f rest { st with trace := st.trace ++ [Ev.dispatch f ci] } := by
  have hstep : attemptStep (oracle ci i) = some (.ok none) := by
    rw [hok]
    simp [attemptStep]
  have hres : (fetch_with_backoff (oracle ci)).result = Except.ok none := by
    rw [fetch_first_success (oracle ci) i hi hpre _ hstep]
  exact ⟨hres, procChunks_skip hres⟩

/-- Witness for `no_content_sentinel_skips` with the sentinel on the first
attempt. -/
theorem no_content_sentinel_skips_witness :
    ((fun _ _ => AskResult.ok "{}") 0 0 = AskResult.ok "{}")
    ∧ (fetch_with_backoff ((fun _ _ => AskResult.ok "{}") 0)).result = Except.ok none
    ∧ procChunks (fun _ _ => AskResult.ok "{}") "out/a.txt.yaml" "a.txt"
          [(0, "c")] ⟨fun _ => "", []⟩
        = procChunks (fun _ _ => AskResult.ok "{}") "out/a.txt.yaml" "a.txt"
            [] ⟨fun _ => "", [Ev.dispatch "a.txt" 0]⟩ :=
  ⟨rfl,
   (no_content_sentinel_skips (fun _ _ => AskResult.ok "{}") 0 0 "c" "out/a.txt.yaml"
      "a.txt" [] ⟨fun _ => "", []⟩ (Nat.zero_le _)
      (fun j hj => absurd hj (Nat.not_lt_zero j)) rfl).1,
   (no_content_sentinel_skips (fun _ _ => AskResult.ok "{}") 0 0 "c" "out/a.txt.yaml"
      "a.txt" [] ⟨fun _ => "", []⟩ (Nat.zero_le _)
      (fun j hj => absurd hj (Nat.not_lt_zero j)) rfl).2⟩

/-- C10: the no-content sentinel is recognized only when the response is
exactly the two-character string `"{}"`; any other textual rendering of an
empty object is instead parsed as a `BookChunk`, fails the required-field
parse, and yields the fatal parse error rather than `Ok(None)`. -/
theorem sentinel_only_exact_braces (responses : Nat → AskResult) (s : String)
    (hok : responses 0 = AskResult.ok s) :
    (s = "{}" → (fetch_with_backoff responses).result = Except.ok none)
    ∧ (s ≠ "{}" → isEmptyObjectRendering s = true →
        (fetch_with_backoff responses).result = .error .parseError) := by
  constructor
  · intro hs
    have hstep : attemptStep (responses 0) = some (.ok none) := by
      rw [hok, hs]
      simp [attemptStep]
    rw [fetch_first_success responses 0 (Nat.zero_le _)
      (fun j hj => absurd hj (Nat.not_lt_zero j)) _ hstep]
  · intro hne hempty
    have hstep : attemptStep (responses 0) = some (.error .parseError) := by
      rw [hok]
      simp [attemptStep, hne, parse_empty_object_fails s hempty]
    rw [fetch_first_success responses 0 (Nat.zero_le _)
      (fun j hj => absurd hj (Nat.not_lt_zero j)) _ hstep]

/-- Witness for `sentinel_only_exact_braces` at the rendering `"{ }"`. -/
theorem sentinel_only_exact_braces_witness :
    ((fun _ => AskResult.ok "\x7b \x7d") 0 = AskResult.ok "\x7b \x7d")
    ∧ ("\x7b \x7d" : String) ≠ "{}"
    ∧ isEmptyObjectRendering "\x7b \x7d" = true
    ∧ (fetch_with_backoff fun _ => AskResult.ok "\x7b \x7d").result
        = .error .parseError :=
  ⟨rfl, by decide, by decide,
   (sentinel_only_exact_braces (fun _ => AskResult.ok "\x7b \x7d") "\x7b \x7d" rfl).2
     (by decide) (by decide)⟩

/- ## Lemmas about the driver and the spawn loop -/

theorem process_files_nil (oracle : String → Nat → Nat → AskResult) (outDir : String)
    (readFile : String → String) (chunksOf : String → List String) (st : ProcState) :
    process_files oracle outDir readFile chunksOf [] st = (st, none) := rfl

theorem process_files_cons_match {oracle : String → Nat → Nat → AskResult}
    {outDir : String} {readFile : String → String} {chunksOf : String → List String}
    {e : DirEntry} {rest : List DirEntry} {st : ProcState}
    (hm : matchesTxt e = true) :
    process_files oracle outDir readFile chunksOf (e :: rest) st
      = match procChunks (oracle e.name) (yamlPathFor outDir e.name) e.name
            (chunksOf (readFile e.name)).enum
            (writeHeader st (yamlPathFor outDir e.name) e.name) with
        | (st2, some err) => (st2, some err)
        | (st2, none) => process_files oracle outDir readFile chunksOf rest st2 := by
  simp only [process_files, hm, if_true]

theorem process_files_cons_skip {oracle : String → Nat → Nat → AskResult}
    {outDir : String} {readFile : String → String} {chunksOf : String → List String}
    {e : DirEntry} {rest : List DirEntry} {st : ProcState}
    (hm : matchesTxt e = false) :
    process_files oracle outDir readFile chunksOf (e :: rest) st
      = process_files oracle outDir readFile chunksOf rest st := by
  simp only [process_files, hm, Bool.false_eq_true, if_false]

/-- C2: a fatal dispatch error (exhausted retries or malformed response)
stops `process_files` at once with that error: the failing chunk's loop
returns the error whatever chunks would have followed, and the whole file
set run returns it whatever directory entries would have followed — no
further chunk and no subsequent file is processed. -/
theorem fatal_dispatch_aborts_file_set (oracle : String → Nat → Nat → AskResult)
    (outDir : String) (readFile : String → String) (chunksOf : String → List String)
    (e : DirEntry) (st st1 : ProcState)
    (done : List (Nat × String)) (ci : Nat) (c : String) (err : FetchErr)
    (hm : matchesTxt e = true)
    (hfatal : (fetch_with_backoff (oracle e.name ci)).result = .error err) :
    (∀ restC, procChunks (oracle e.name) (yamlPathFor outDir e.name) e.name
        ((ci, c) :: restC) st1
      = ({ st1 with trace := st1.trace ++ [Ev.dispatch e.name ci] }, some err))
    ∧ ∀ restC restE,
        (chunksOf (readFile e.name)).enum = done ++ (ci, c) :: restC →
        procChunks (oracle e.name) (yamlPathFor outDir e.name) e.name done
            (writeHeader st (yamlPathFor outDir e.name) e.name) = (st1, none) →
        process_files oracle outDir readFile chunksOf (e :: restE) st
          = ({ st1 with trace := st1.trace ++ [Ev.dispatch e.name ci] }, some err) := by
  refine ⟨fun restC => procChunks_fatal hfatal, ?_⟩
  intro restC restE hsplit hdone
  have hrun : procChunks (oracle e.name) (yamlPathFor outDir e.name) e.name
      (done ++ (ci, c) :: restC) (writeHeader st (yamlPathFor outDir e.name) e.name)
      = ({ st1 with trace := st1.trace ++ [Ev.dispatch e.name ci] }, some err) := by
    rw [procChunks_append_ok _ _ _ done _ _ _ hdone, procChunks_fatal hfatal]
  rw [process_files_cons_match hm, hsplit, hrun]

/-- Witness for `fatal_dispatch_aborts_file_set`: an endpoint that is
always down; the second directory entry is never reached. -/
theorem fatal_dispatch_aborts_file_set_witness :
    matchesTxt ⟨"a.txt", true⟩ = true
    ∧ (fetch_with_backoff ((fun _ _ _ => AskResult.err "down") "a.txt" 0)).result
        = .error .allRetriesFailed
    ∧ process_files (fun _ _ _ => AskResult.err "down") "out" (fun _ => "")
          (fun _ => ["c0"]) [⟨"a.txt", true⟩, ⟨"b.txt", true⟩] ⟨fun _ => "", []⟩
        = ({ writeHeader ⟨fun _ => "", []⟩ (yamlPathFor "out" "a.txt") "a.txt" with
              trace := (writeHeader ⟨fun _ => "", []⟩ (yamlPathFor "out" "a.txt")
                  "a.txt").trace ++ [Ev.dispatch "a.txt" 0] },
           some FetchErr.allRetriesFailed) :=
  ⟨by decide, rfl,
   (fatal_dispatch_aborts_file_set (fun _ _ _ => AskResult.err "down") "out"
      (fun _ => "") (fun _ => ["c0"]) ⟨"a.txt", true⟩ ⟨fun _ => "", []⟩
      (writeHeader ⟨fun _ => "", []⟩ (yamlPathFor "out" "a.txt") "a.txt")
      [] 0 "c0" FetchErr.allRetriesFailed (by decide) rfl).2
      [] [⟨"b.txt", true⟩] rfl rfl⟩

/-- Counterexample to C4 as stated: with a failing first configuration and
a healthy second one, the spawn loop of `main` aborts before the second
endpoint is ever spawned, so the other endpoint's run does not start. -/
theorem config_error_blocks_later_endpoints :
    (mainConfigLoop [Except.error "boom", Except.ok ⟨0⟩]).1 = []
    ∧ Config.mk 0 ∉ (mainConfigLoop [Except.error "boom", Except.ok ⟨0⟩]).1
    ∧ (mainConfigLoop [Except.error "boom", Except.ok ⟨0⟩]).2
        = some "Config load error: boom" :=
  ⟨rfl, by simp [mainConfigLoop], rfl⟩

/-- C4 amended: a configuration load error for one endpoint aborts the
whole invocation at that point: the endpoints listed before it have
already been spawned, but the failing endpoint and every endpoint listed
after it never run, and `main` returns the mapped config-load error. -/
theorem config_error_aborts_main (pre : List Config) (m : String)
    (rest : List (Except String Config)) :
    mainConfigLoop (pre.map Except.ok ++ Except.error m :: rest)
      = (pre, some ("Config load error: " ++ m)) := by
  induction pre with
  | nil => rfl
  | cons c cs ih => simp [mainConfigLoop, ih]

/-- Witness for `chunks_processed_in_order` on two accepted chunks. -/
theorem chunks_processed_in_order_witness :
    (∀ ic ∈ (["chunk one", "chunk two"] : List String).enum,
        isFatal (fetch_with_backoff
          ((fun _ _ => AskResult.ok "\x7b\"sanitizedBookExcerpt\": \"hi\"\x7d") ic.1)).result
          = false)
    ∧ (procChunks (fun _ _ => AskResult.ok "\x7b\"sanitizedBookExcerpt\": \"hi\"\x7d")
          "out/a.txt.yaml" "a.txt" (["chunk one", "chunk two"] : List String).enum
          ⟨fun _ => "", []⟩).2 = none
    ∧ (procChunks (fun _ _ => AskResult.ok "\x7b\"sanitizedBookExcerpt\": \"hi\"\x7d")
          "out/a.txt.yaml" "a.txt" (["chunk one", "chunk two"] : List String).enum
          ⟨fun _ => "", []⟩).1.trace
        = [] ++ ((["chunk one", "chunk two"] : List String).enum.flatMap fun ic =>
            match (fetch_with_backoff
                ((fun _ _ => AskResult.ok "\x7b\"sanitizedBookExcerpt\": \"hi\"\x7d") ic.1)).result with
            | .ok (some _) => [Ev.dispatch "a.txt" ic.1, Ev.append "a.txt" ic.1]
            | _ => [Ev.dispatch "a.txt" ic.1]) :=
  ⟨by decide,
   (chunks_processed_in_order (fun _ _ => AskResult.ok "\x7b\"sanitizedBookExcerpt\": \"hi\"\x7d")
      "out/a.txt.yaml" "a.txt" ["chunk one", "chunk two"] ⟨fun _ => "", []⟩ (by decide)).2.1,
   (chunks_processed_in_order (fun _ _ => AskResult.ok "\x7b\"sanitizedBookExcerpt\": \"hi\"\x7d")
      "out/a.txt.yaml" "a.txt" ["chunk one", "chunk two"] ⟨fun _ => "", []⟩ (by decide)).1⟩

theorem process_files_nonfatal (oracle : String → Nat → Nat → AskResult)
    (outDir : String) (readFile : String → String) (chunksOf : String → List String)
    (entries : List DirEntry) :
    ∀ st, (∀ name i, isFatal (fetch_with_backoff (oracle name i)).result = false) →
      ((process_files oracle outDir readFile chunksOf entries st).1.trace.filterMap headerName
          = st.trace.filterMap headerName ++ (entries.filter matchesTxt).map DirEntry.name)
      ∧ (process_files oracle outDir readFile chunksOf entries st).2 = none
      ∧ ∀ q, (∀ e ∈ entries, matchesTxt e = true → q ≠ yamlPathFor outDir e.name) →
          (process_files oracle outDir readFile chunksOf entries st).1.fs q = st.fs q := by
  induction entries with
  | nil =>
      intro st _
      exact ⟨by simp [process_files_nil], rfl, fun q _ => rfl⟩
  | cons e rest ih =>
      intro st hnf
      by_cases hm : matchesTxt e = true
      · have hcnf : ∀ ic ∈ (chunksOf (readFile e.name)).enum,
            isFatal (fetch_with_backoff (oracle e.name ic.1)).result = false :=
          fun ic _ => hnf e.name ic.1
        obtain ⟨-, hok, -⟩ := procChunks_nonfatal (oracle e.name)
          (yamlPathFor outDir e.name) e.name (chunksOf (readFile e.name)).enum
          (writeHeader st (yamlPathFor outDir e.name) e.name) hcnf
        have hred : process_files oracle outDir readFile chunksOf (e :: rest) st
            = process_files oracle outDir readFile chunksOf rest
                (procChunks (oracle e.name) (yamlPathFor outDir e.name) e.name
                  (chunksOf (readFile e.name)).enum
                  (writeHeader st (yamlPathFor outDir e.name) e.name)).1 := by
          rw [process_files_cons_match hm]
          rcases hpc : procChunks (oracle e.name) (yamlPathFor outDir e.name) e.name
              (chunksOf (readFile e.name)).enum
              (writeHeader st (yamlPathFor outDir e.name) e.name) with ⟨st2, r⟩
          rw [hpc] at hok
          cases r with
          | none => rfl
          | some err => exact absurd hok (by simp)
        obtain ⟨ih1, ih2, ih3⟩ := ih
          ((procChunks (oracle e.name) (yamlPathFor outDir e.name) e.name
            (chunksOf (readFile e.name)).enum
            (writeHeader st (yamlPathFor outDir e.name) e.name)).1) hnf
        refine ⟨?_, by rw [hred]; exact ih2, ?_⟩
        · rw [hred, ih1, procChunks_trace_headers]
          rw [show (writeHeader st (yamlPathFor outDir e.name) e.name).trace
              = st.trace ++ [Ev.header e.name] from rfl]
          rw [List.filterMap_append]
          rw [show List.filterMap headerName [Ev.header e.name] = [e.name] from rfl]
          rw [List.filter_cons_of_pos hm, List.map_cons, List.append_assoc]
          rfl
        · intro q hq
          have hqe : q ≠ yamlPathFor outDir e.name := hq e (by simp) hm
          rw [hred, ih3 q (fun e2 h2 hm2 => hq e2 (List.mem_cons_of_mem _ h2) hm2),
            procChunks_fs_other _ _ _ _ _ _ hqe]
          simp [writeHeader, hqe]
      · have hm' : matchesTxt e = false := by
          simpa using hm
        rw [process_files_cons_skip hm']
        obtain ⟨ih1, ih2, ih3⟩ := ih st hnf
        refine ⟨?_, ih2, ?_⟩
        · rw [ih1, List.filter_cons_of_neg (by simp [hm'])]
        · intro q hq
          exact ih3 q (fun e2 h2 hm2 => hq e2 (List.mem_cons_of_mem _ h2) hm2)

theorem yamlPathFor_txt (outDir n : String) :
    yamlPathFor outDir (n ++ ".txt") = outDir ++ "/" ++ n ++ ".txt.yaml" := by
  rw [yamlPathFor, ← str_append_assoc (outDir ++ "/") n ".txt",
    str_append_assoc (outDir ++ "/" ++ n) ".txt" ".yaml"]
  rfl

/-- C8: the driver processes exactly the directory entries that are
regular files with extension `txt` — a processed entry contributes its
header, skipped entries touch nothing, and no path outside the matched
entries' output documents is written — and each input file named
`name.txt` maps to the output document `name.txt.yaml` in the output
directory. -/
theorem driver_selects_txt_files (oracle : String → Nat → Nat → AskResult)
    (outDir : String) (readFile : String → String) (chunksOf : String → List String)
    (entries : List DirEntry) (st : ProcState)
    (hnf : ∀ name i, isFatal (fetch_with_backoff (oracle name i)).result = false) :
    ((process_files oracle outDir readFile chunksOf entries st).1.trace.filterMap headerName
        = st.trace.filterMap headerName ++ (entries.filter matchesTxt).map DirEntry.name)
    ∧ (process_files oracle outDir readFile chunksOf entries st).2 = none
    ∧ (∀ q, (∀ e ∈ entries, matchesTxt e = true → q ≠ yamlPathFor outDir e.name) →
        (process_files oracle outDir readFile chunksOf entries st).1.fs q = st.fs q)
    ∧ ∀ n, yamlPathFor outDir (n ++ ".txt") = outDir ++ "/" ++ n ++ ".txt.yaml" := by
  obtain ⟨h1, h2, h3⟩ := process_files_nonfatal oracle outDir readFile chunksOf entries st hnf
  exact ⟨h1, h2, h3, fun n => yamlPathFor_txt outDir n⟩

/-- Witness for `driver_selects_txt_files`: of three entries — a `.txt`
file, a `.md` file, and a directory whose name ends in `.txt` — only the
first is processed. -/
theorem driver_selects_txt_files_witness :
    (process_files (fun _ _ _ => AskResult.ok "{}") "out" (fun _ => "")
        (fun _ => ["c"]) [⟨"a.txt", true⟩, ⟨"notes.md", true⟩, ⟨"dir.txt", false⟩]
        ⟨fun _ => "", []⟩).1.trace.filterMap headerName
      = ["a.txt"]
    ∧ (process_files (fun _ _ _ => AskResult.ok "{}") "out" (fun _ => "")
        (fun _ => ["c"]) [⟨"a.txt", true⟩, ⟨"notes.md", true⟩, ⟨"dir.txt", false⟩]
        ⟨fun _ => "", []⟩).2 = none
    ∧ yamlPathFor "out" ("a" ++ ".txt") = "out" ++ "/" ++ "a" ++ ".txt.yaml" :=
  ⟨((driver_selects_txt_files (fun _ _ _ => AskResult.ok "{}") "out" (fun _ => "")
      (fun _ => ["c"]) [⟨"a.txt", true⟩, ⟨"notes.md", true⟩, ⟨"dir.txt", false⟩]
      ⟨fun _ => "", []⟩ (fun _ _ => rfl)).1).trans (by decide),
   (driver_selects_txt_files (fun _ _ _ => AskResult.ok "{}") "out" (fun _ => "")
      (fun _ => ["c"]) [⟨"a.txt", true⟩, ⟨"notes.md", true⟩, ⟨"dir.txt", false⟩]
      ⟨fun _ => "", []⟩ (fun _ _ => rfl)).2.1,
   (driver_selects_txt_files (fun _ _ _ => AskResult.ok "{}") "out" (fun _ => "")
      (fun _ => ["c"]) [⟨"a.txt", true⟩, ⟨"notes.md", true⟩, ⟨"dir.txt", false⟩]
      ⟨fun _ => "", []⟩ (fun _ _ => rfl)).2.2.2 "a"⟩

/-- C9: the `chunks:` header is written unconditionally for each matched
input file, appended after whatever the output document already holds — so
a re-run (or a second worker sharing the output directory) appends a fresh
header line into the middle of the existing document instead of extending
the existing chunk list. -/
theorem header_appended_unconditionally (oracle : String → Nat → Nat → AskResult)
    (outDir : String) (readFile : String → String) (chunksOf : String → List String)
    (e : DirEntry) (st : ProcState)
    (hm : matchesTxt e = true) :
    ∃ tail, (process_files oracle outDir readFile chunksOf [e] st).1.fs
        (yamlPathFor outDir e.name)
      = st.fs (yamlPathFor outDir e.name) ++ "chunks:\n" ++ tail := by
  rcases hpc : procChunks (oracle e.name) (yamlPathFor outDir e.name) e.name
      (chunksOf (readFile e.name)).enum
      (writeHeader st (yamlPathFor outDir e.name) e.name) with ⟨st2, r⟩
  have hfs : ∃ t, st2.fs (yamlPathFor outDir e.name)
      = (writeHeader st (yamlPathFor outDir e.name) e.name).fs
          (yamlPathFor outDir e.name) ++ t := by
    have h := procChunks_fs_p (oracle e.name) (yamlPathFor outDir e.name) e.name
      (chunksOf (readFile e.name)).enum
      (writeHeader st (yamlPathFor outDir e.name) e.name)
    rwa [hpc] at h
  obtain ⟨t, ht⟩ := hfs
  refine ⟨t, ?_⟩
  rw [process_files_cons_match hm, hpc]
  cases r with
  | none =>
      show st2.fs _ = _
      rw [ht]
      simp [writeHeader]
  | some err =>
      show st2.fs _ = _
      rw [ht]
      simp [writeHeader]

/-- Witness for `header_appended_unconditionally`: the output document
already holds a full previous run; a second run appends another header. -/
theorem header_appended_unconditionally_witness :
    matchesTxt ⟨"b.txt", true⟩ = true
    ∧ ∃ tail, (process_files (fun _ _ _ => AskResult.ok "{}") "out" (fun _ => "")
          (fun _ => ["c"]) [⟨"b.txt", true⟩]
          ⟨fun _ => "chunks:\n", []⟩).1.fs (yamlPathFor "out" "b.txt")
        = (ProcState.mk (fun _ => "chunks:\n") []).fs (yamlPathFor "out" "b.txt")
            ++ "chunks:\n" ++ tail :=
  ⟨by decide,
   header_appended_unconditionally (fun _ _ _ => AskResult.ok "{}") "out" (fun _ => "")
     (fun _ => ["c"]) ⟨"b.txt", true⟩ ⟨fun _ => "chunks:\n", []⟩ (by decide)⟩

end BookSanitizer
